import Mathlib

/-!
Verification of the extraction-and-classification core of `get-pubmed-papers`
(`src/get_papers/fetcher.py`): the affiliation classifier
`has_company_affiliation` and the record extractor `parse_articles`.

The parsed XML document is modelled as a tree of elements, mirroring
`xml.etree.ElementTree`: every element has a tag, optional text (an element
parsed from `<X></X>` has `text = None` in ElementTree, modelled as `none`
here), and a list of children.  Path queries `find(".//X")`,
`findall(".//X")`, `find(".//X/Y")` and `find("X")` are modelled by
pre-order traversal of proper descendants, matching ElementTree's
document-order semantics.  Python's `re.search(r'[\w\.-]+@[\w\.-]+', s)`
is modelled by an explicit leftmost-match scanner over the character list
(`\w` is modelled over ASCII word characters).  Python `str | None` values
are `Option String`; the exceptions the code can raise are the constructors
of `ExtractError`.
-/

/-- An XML element: tag, optional text, children (ElementTree view). -/
inductive Element : Type where
  | mk (tag : String) (text : Option String) (children : List Element)
deriving Repr

def Element.tag : Element → String
  | .mk t _ _ => t

def Element.text : Element → Option String
  | .mk _ tx _ => tx

def Element.children : Element → List Element
  | .mk _ _ cs => cs

/-- All proper descendants of an element in document (pre-)order,
as iterated by ElementTree's `elem.iter()` minus the element itself. -/
def Element.descendants : Element → List Element
  | .mk _ _ cs => go cs
where
  go : List Element → List Element
  | [] => []
  | c :: cs => c :: (Element.descendants c ++ go cs)

/-- `elem.findall(".//tag")`: all descendants with the given tag, in
document order. -/
def findAllDesc (e : Element) (tag : String) : List Element :=
  e.descendants.filter (fun d => d.tag == tag)

/-- `elem.find(".//tag")`: first descendant with the given tag. -/
def findFirstDesc (e : Element) (tag : String) : Option Element :=
  (findAllDesc e tag).head?

/-- `elem.find(t)` for a plain child tag `t`: first direct child. -/
def findChild (e : Element) (tag : String) : Option Element :=
  e.children.find? (fun c => c.tag == tag)

/-- `elem.find(".//t1/t2")`: for every descendant with tag `t1` in document
order, its direct children with tag `t2` in order; first of that stream. -/
def findDescPath (e : Element) (t1 t2 : String) : Option Element :=
  ((findAllDesc e t1).flatMap (fun a => a.children.filter (fun c => c.tag == t2))).head?

/-- Python substring test `needle in hay` (case-sensitive, unanchored). -/
def strContains (hay needle : String) : Bool :=
  hay.data.tails.any (fun t => needle.data.isPrefixOf t)

/-- The commercial-marker list `keywords` of `has_company_affiliation`. -/
def keywords : List String := ["Inc", "Ltd", "Corporation", "Pharma", "Biotech", "LLC"]

/-- The academic-marker list `excluded` of `has_company_affiliation`. -/
def excluded : List String := ["University", "Hospital", "School", "Institute"]

/-- `has_company_affiliation(affiliation)` from `fetcher.py`.  The Python
argument is `affil_elem.text`, of type `str | None`; `not affiliation` is
true for `None` and for the empty string. -/
def has_company_affiliation (affiliation : Option String) : Bool :=
  match affiliation with
  | none => false
  | some a =>
    if a = "" then
      false
    else
      keywords.any (fun k => strContains a k) && !(excluded.any (fun e => strContains a e))

/-- Character class `[\w\.-]` of the e-mail pattern, over ASCII word
characters. -/
def emailChar (c : Char) : Bool :=
  c.isAlphanum || c == '_' || c == '.' || c == '-'

/-- One attempt of `re.search(r'[\w\.-]+@[\w\.-]+', ...)` anchored at the
start of `cs`: greedy run of `[\w\.-]`, a literal `@`, a greedy nonempty
run of `[\w\.-]`.  (Backtracking the greedy runs can never succeed here,
because `@` is not in the class, so the maximal-run reading is exact.) -/
def matchEmailAt (cs : List Char) : Option (List Char) :=
  let l1 := cs.takeWhile emailChar
  let rest := cs.dropWhile emailChar
  if l1.isEmpty then
    none
  else
    match rest with
    | '@' :: rest2 =>
      let l2 := rest2.takeWhile emailChar
      if l2.isEmpty then none else some (l1 ++ '@' :: l2)
    | _ => none

/-- `re.search`: try each start position left to right, return the first
match. -/
def searchEmail : List Char → Option (List Char)
  | [] => none
  | c :: cs =>
    match matchEmailAt (c :: cs) with
    | some m => some m
    | none => searchEmail cs

/-- The exceptions `parse_articles` can raise: the `RuntimeError` re-raised
on `ET.ParseError`, and the `TypeError` from concatenating `None` with a
string in the full-name expression. -/
inductive ExtractError where
  | parseError
  | typeError
deriving DecidableEq, Repr

/-- The `xml_data` argument of `parse_articles`: either bytes that
`ET.fromstring` rejects, or bytes that parse to a root element. -/
inductive XmlData where
  | malformed
  | wellFormed (root : Element)

/-- One output dictionary of `parse_articles`.  `pmid`, `title` and `date`
are `str | None` in Python (the text of a present-but-empty element is
`None`), hence `Option String` here. -/
structure ResultRecord where
  pmid : Option String
  title : Option String
  date : Option String
  authors : List String
  affiliations : List String
  emails : List String
deriving DecidableEq, Repr

/-- `title = title_elem.text if title_elem is not None else "No Title"`. -/
def resolveTitle (article : Element) : Option String :=
  match findFirstDesc article "ArticleTitle" with
  | some e => e.text
  | none => some "No Title"

/-- `pmid = pmid_elem.text if pmid_elem is not None else "N/A"`. -/
def resolvePmid (article : Element) : Option String :=
  match findFirstDesc article "PMID" with
  | some e => e.text
  | none => some "N/A"

/-- The `pub_date` resolution: `"Unknown"` without a `PubDate` descendant;
otherwise the `Year` child's text if a `Year` child exists, else the
`MedlineDate` child's text if one exists, else `"Unknown"`. -/
def resolvePubDate (article : Element) : Option String :=
  match findFirstDesc article "PubDate" with
  | none => some "Unknown"
  | some d =>
    match findChild d "Year" with
    | some y => y.text
    | none =>
      match findChild d "MedlineDate" with
      | some m => m.text
      | none => some "Unknown"

/-- `full_name = (first.text + " " if first is not None else "") +
(last.text if last is not None else "")`, as a function of the results of
`author.find("ForeName")` and `author.find("LastName")`.  When a present
`ForeName` or `LastName` element has no text, the Python expression adds
`None` to a string and raises `TypeError`. -/
def fullNameOfParts (first last : Option Element) : Except ExtractError String :=
  match first with
  | some f =>
    match f.text with
    | none => .error .typeError
    | some ft =>
      match last with
      | some l =>
        match l.text with
        | none => .error .typeError
        | some lt => .ok (ft ++ " " ++ lt)
      | none => .ok (ft ++ " ")
  | none =>
    match last with
    | some l =>
      match l.text with
      | none => .error .typeError
      | some lt => .ok lt
    | none => .ok ""

/-- The `full_name` computation of the author loop. -/
def authorFullName (author : Element) : Except ExtractError String :=
  fullNameOfParts (findChild author "ForeName") (findChild author "LastName")

/-- The body of the author loop of `parse_articles` as a function of the
resolved affiliation element and the (lazily raised) full-name result:
`none` when the author is skipped, `some (full_name, affiliation_text,
email)` when it qualifies.  When the classifier accepts, the affiliation
text is necessarily a present string, so reading it with default `""`
agrees with Python's `affil_elem.text`. -/
def processAuthorCore (affil : Option Element) (name : Except ExtractError String) :
    Except ExtractError (Option (String × String × String)) :=
  match affil with
  | none => .ok none
  | some affilEl =>
    if has_company_affiliation affilEl.text then
      match name with
      | .error e => .error e
      | .ok full_name =>
        let affiliation_text := affilEl.text.getD ""
        let email :=
          match searchEmail affiliation_text.data with
          | some m => String.mk m
          | none => "N/A"
        .ok (some (full_name, affiliation_text, email))
    else
      .ok none

/-- One iteration of the author loop for one `Author` element. -/
def processAuthor (author : Element) : Except ExtractError (Option (String × String × String)) :=
  processAuthorCore (findDescPath author "AffiliationInfo" "Affiliation") (authorFullName author)

/-- The author loop: accumulate the qualifying authors' triples in order,
aborting on the first raised exception exactly as the Python loop does. -/
def collectAuthors : List Element → Except ExtractError (List (String × String × String))
  | [] => .ok []
  | au :: rest =>
    match processAuthor au with
    | .error e => .error e
    | .ok none => collectAuthors rest
    | .ok (some t) =>
      match collectAuthors rest with
      | .error e => .error e
      | .ok ts => .ok (t :: ts)

/-- One iteration of the article loop of `parse_articles`: `none` when
`company_authors` stays empty and nothing is appended to `results`. -/
def processArticle (article : Element) : Except ExtractError (Option ResultRecord) :=
  match collectAuthors (findAllDesc article "Author") with
  | .error e => .error e
  | .ok company_authors =>
    if company_authors.isEmpty then
      .ok none
    else
      .ok (some {
        pmid := resolvePmid article,
        title := resolveTitle article,
        date := resolvePubDate article,
        authors := company_authors.map (fun a => a.1),
        affiliations := company_authors.map (fun a => a.2.1),
        emails := company_authors.map (fun a => a.2.2) })

/-- The article loop over `root.findall(".//PubmedArticle")`. -/
def collectArticles : List Element → Except ExtractError (List ResultRecord)
  | [] => .ok []
  | a :: rest =>
    match processArticle a with
    | .error e => .error e
    | .ok none => collectArticles rest
    | .ok (some r) =>
      match collectArticles rest with
      | .error e => .error e
      | .ok rs => .ok (r :: rs)

/-- `parse_articles(xml_data)`: re-raise the parse failure of
`ET.fromstring` as a `RuntimeError`, otherwise run the article loop. -/
def parse_articles (xml_data : XmlData) : Except ExtractError (List ResultRecord) :=
  match xml_data with
  | .malformed => .error .parseError
  | .wellFormed root => collectArticles (findAllDesc root "PubmedArticle")

/-! ### Specification-side descriptions of the extraction

The following definitions do not re-implement the pipeline; they name the
per-author and per-article values the pipeline produces on its successful
paths, so that theorems can relate `parse_articles` outputs to the source
document. -/

/-- The author-loop guard `affil_elem is not None and
has_company_affiliation(affil_elem.text)`. -/
def authorQualifies (au : Element) : Bool :=
  match findDescPath au "AffiliationInfo" "Affiliation" with
  | some affil => has_company_affiliation affil.text
  | none => false

/-- A record is emitted iff some author passes the guard. -/
def articleQualifies (a : Element) : Bool :=
  (findAllDesc a "Author").any authorQualifies

/-- The full name of an author on the non-raising path. -/
def fullNamePure (au : Element) : String :=
  (match findChild au "ForeName" with
   | some f => f.text.getD "" ++ " "
   | none => "") ++
  (match findChild au "LastName" with
   | some l => l.text.getD ""
   | none => "")

/-- The affiliation text consulted for an author (first match of
`.//AffiliationInfo/Affiliation`, empty when irrelevant). -/
def affilTextPure (au : Element) : String :=
  match findDescPath au "AffiliationInfo" "Affiliation" with
  | some affil => affil.text.getD ""
  | none => ""

/-- The e-mail extracted for a qualifying author. -/
def emailPure (au : Element) : String :=
  match searchEmail (affilTextPure au).data with
  | some m => String.mk m
  | none => "N/A"

/-- The `(full_name, affiliation_text, email)` triple of a qualifying
author on the non-raising path. -/
def pureTriple (au : Element) : String × String × String :=
  (fullNamePure au, affilTextPure au, emailPure au)

/-- The qualifying authors of an article, in document order. -/
def qualAuthors (a : Element) : List Element :=
  (findAllDesc a "Author").filter authorQualifies

/-- The result dictionary produced for a qualifying article on the
non-raising path. -/
def recordPure (a : Element) : ResultRecord where
  pmid := resolvePmid a
  title := resolveTitle a
  date := resolvePubDate a
  authors := (qualAuthors a).map fullNamePure
  affiliations := (qualAuthors a).map affilTextPure
  emails := (qualAuthors a).map emailPure

/-- Whether every present `ForeName`/`LastName` child of an author carries
text, so that the full-name expression cannot raise. -/
def nameTextOk (au : Element) : Bool :=
  (match findChild au "ForeName" with
   | some f => f.text.isSome
   | none => true) &&
  (match findChild au "LastName" with
   | some l => l.text.isSome
   | none => true)

/-- Whether no qualifying author of the document has a present-but-textless
name element. -/
def docNamesOk (root : Element) : Bool :=
  (findAllDesc root "PubmedArticle").all (fun a =>
    (findAllDesc a "Author").all (fun au => !authorQualifies au || nameTextOk au))

/-- The full stream of `.//AffiliationInfo/Affiliation` matches of an
author, in document order; `author.find` consults only its head. -/
def affilCandidates (au : Element) : List Element :=
  (findAllDesc au "AffiliationInfo").flatMap
    (fun a => a.children.filter (fun c => c.tag == "Affiliation"))

/-! ### Concrete documents used to instantiate the theorems -/

def exC1author : Element := .mk "Author" none [
  .mk "LastName" (some "Doe") [],
  .mk "ForeName" (some "Jane") [],
  .mk "AffiliationInfo" none [
    .mk "Affiliation" (some "Acme Pharma Inc, Boston. Contact: jane.doe@acme-pharma.com") []]]

def exC1art1 : Element := .mk "PubmedArticle" none [
  .mk "PMID" (some "11111") [],
  .mk "ArticleTitle" (some "A Study") [],
  exC1author]

def exC1art2 : Element := .mk "PubmedArticle" none [
  .mk "PMID" (some "22222") [],
  .mk "Author" none [
    .mk "AffiliationInfo" none [
      .mk "Affiliation" (some "Dept. of Chemistry, Stanford University") []]]]

def exC1root : Element := .mk "PubmedArticleSet" none [exC1art1, exC1art2]

def exC1out : List ResultRecord := [{
  pmid := some "11111",
  title := some "A Study",
  date := some "Unknown",
  authors := ["Jane Doe"],
  affiliations := ["Acme Pharma Inc, Boston. Contact: jane.doe@acme-pharma.com"],
  emails := ["jane.doe@acme-pharma.com"] }]

def exC3author : Element := .mk "Author" none [
  .mk "ForeName" none [],
  .mk "AffiliationInfo" none [.mk "Affiliation" (some "Acme Pharma Inc") []]]

def exC3root : Element := .mk "PubmedArticleSet" none [.mk "PubmedArticle" none [exC3author]]

def exC3okroot : Element := .mk "PubmedArticleSet" none [
  .mk "PubmedArticle" none [
    .mk "Author" none [
      .mk "AffiliationInfo" none [.mk "Affiliation" (some "Sparse Biotech LLC") []]]]]

def exC4art : Element := .mk "PubmedArticle" none [
  .mk "PMID" (some "44444") [],
  .mk "Author" none [
    .mk "LastName" (some "Ada") [],
    .mk "AffiliationInfo" none [
      .mk "Affiliation" (some "Alpha Pharma Ltd, a.ada@alpha-pharma.com") []]],
  .mk "Author" none [
    .mk "LastName" (some "Bob") [],
    .mk "AffiliationInfo" none [.mk "Affiliation" (some "Beta University") []]],
  .mk "Author" none [
    .mk "LastName" (some "Cyd") [],
    .mk "ForeName" (some "Md") [],
    .mk "AffiliationInfo" none [.mk "Affiliation" (some "Gamma Biotech Inc") []]]]

def exC4root : Element := .mk "PubmedArticleSet" none [exC4art]

def exC4rec : ResultRecord := {
  pmid := some "44444",
  title := some "No Title",
  date := some "Unknown",
  authors := ["Ada", "Md Cyd"],
  affiliations := ["Alpha Pharma Ltd, a.ada@alpha-pharma.com", "Gamma Biotech Inc"],
  emails := ["a.ada@alpha-pharma.com", "N/A"] }

def exC5author : Element := .mk "Author" none [
  .mk "LastName" (some "Doe") [],
  .mk "AffiliationInfo" none [.mk "Affiliation" (some "Semper Biotech Ltd") []]]

def exC5art : Element := .mk "PubmedArticle" none [
  .mk "PMID" (some "N/A") [],
  exC5author]

def exC5root : Element := .mk "PubmedArticleSet" none [exC5art]

def exC5rec : ResultRecord := {
  pmid := some "N/A",
  title := some "No Title",
  date := some "Unknown",
  authors := ["Doe"],
  affiliations := ["Semper Biotech Ltd"],
  emails := ["N/A"] }

def exC5amArt : Element := .mk "PubmedArticle" none [
  .mk "Author" none [
    .mk "LastName" (some "Lee") [],
    .mk "AffiliationInfo" none [.mk "Affiliation" (some "Delta Corporation") []]]]

def exC5amRec : ResultRecord := {
  pmid := some "N/A",
  title := some "No Title",
  date := some "Unknown",
  authors := ["Lee"],
  affiliations := ["Delta Corporation"],
  emails := ["N/A"] }

def exC6rec : ResultRecord := {
  pmid := some "66666",
  title := some "No Title",
  date := some "2021",
  authors := ["Kim"],
  affiliations := ["Epsilon Pharma"],
  emails := ["N/A"] }

def exC6date : Element := .mk "PubDate" none [
  .mk "Year" (some "2021") [],
  .mk "MedlineDate" (some "2021 Jan-Feb") []]

def exC6art : Element := .mk "PubmedArticle" none [
  .mk "PMID" (some "66666") [],
  exC6date,
  .mk "Author" none [
    .mk "LastName" (some "Kim") [],
    .mk "AffiliationInfo" none [.mk "Affiliation" (some "Epsilon Pharma") []]]]

def exC7author : Element := .mk "Author" none [
  .mk "ForeName" (some "Grace") [],
  .mk "LastName" (some "Hopper") [],
  .mk "AffiliationInfo" none [.mk "Affiliation" (some "Zeta Computing Inc") []]]

def exC8author : Element := .mk "Author" none [
  .mk "ForeName" (some "Jane") [],
  .mk "LastName" (some "Doe") [],
  .mk "AffiliationInfo" none [
    .mk "Affiliation" (some "Acme Pharma Inc, Boston. Contact: jane.doe@acme-pharma.com") []]]

def exC9author : Element := .mk "Author" none [
  .mk "LastName" none [],
  .mk "AffiliationInfo" none [.mk "Affiliation" (some "Theta Pharma LLC") []]]

def exC9root : Element := .mk "PubmedArticleSet" none [.mk "PubmedArticle" none [exC9author]]

def exC10au1 : Element := .mk "Author" none [
  .mk "LastName" (some "Nu") [],
  .mk "AffiliationInfo" none [.mk "Affiliation" (some "Iota University") []],
  .mk "AffiliationInfo" none [.mk "Affiliation" (some "Kappa Pharma Inc") []]]

def exC10au2 : Element := .mk "Author" none [
  .mk "LastName" (some "Nu") [],
  .mk "AffiliationInfo" none [.mk "Affiliation" (some "Iota University") []]]

/-! ### Basic lemmas about the successful paths -/

theorem authorFullName_eq_pure (au : Element) (n : String)
    (h : authorFullName au = .ok n) : n = fullNamePure au := by
  cases hf : findChild au "ForeName" with
  | none =>
    cases hl : findChild au "LastName" with
    | none =>
      simp only [authorFullName, fullNameOfParts, hf, hl, Except.ok.injEq] at h
      simp [fullNamePure, hf, hl, ← h]
    | some l =>
      cases hlt : l.text with
      | none => simp [authorFullName, fullNameOfParts, hf, hl, hlt] at h
      | some lt =>
        simp only [authorFullName, fullNameOfParts, hf, hl, hlt, Except.ok.injEq] at h
        simp [fullNamePure, hf, hl, hlt, ← h]
  | some f =>
    cases hft : f.text with
    | none => simp [authorFullName, fullNameOfParts, hf, hft] at h
    | some ft =>
      cases hl : findChild au "LastName" with
      | none =>
        simp only [authorFullName, fullNameOfParts, hf, hft, hl, Except.ok.injEq] at h
        simp [fullNamePure, hf, hft, hl, ← h]
      | some l =>
        cases hlt : l.text with
        | none => simp [authorFullName, fullNameOfParts, hf, hft, hl, hlt] at h
        | some lt =>
          simp only [authorFullName, fullNameOfParts, hf, hft, hl, hlt, Except.ok.injEq] at h
          simp [fullNamePure, hf, hft, hl, hlt, ← h]

theorem processAuthor_ok (au : Element) (r : Option (String × String × String))
    (h : processAuthor au = .ok r) :
    r = if authorQualifies au = true then some (pureTriple au) else none := by
  unfold processAuthor processAuthorCore at h
  unfold authorQualifies
  split at h
  · simp_all
  · rename_i affil haf
    rw [haf]
    split at h
    · rename_i hc
      cases hn : authorFullName au with
      | error e => rw [hn] at h; cases h
      | ok nm =>
        rw [hn] at h
        simp only [Except.ok.injEq] at h
        simp only [hc, if_true]
        rw [← h]
        have := authorFullName_eq_pure au nm hn
        simp [pureTriple, this, fullNamePure, affilTextPure, emailPure, haf]
    · rename_i hc
      simp only [Bool.not_eq_true] at hc
      simp_all

theorem filter_isEmpty_eq_not_any {α : Type} (p : α → Bool) (l : List α) :
    (l.filter p).isEmpty = !l.any p := by
  induction l with
  | nil => rfl
  | cons x xs ih =>
    cases hx : p x with
    | true => simp [List.filter_cons, hx]
    | false => simp [List.filter_cons, hx, ih]

theorem isEmpty_map {α β : Type} (f : α → β) (l : List α) :
    (l.map f).isEmpty = l.isEmpty := by
  cases l <;> rfl

theorem collectAuthors_ok (aus : List Element) (l : List (String × String × String))
    (h : collectAuthors aus = .ok l) :
    l = (aus.filter authorQualifies).map pureTriple ∧
    ∀ au ∈ aus, processAuthor au =
      .ok (if authorQualifies au = true then some (pureTriple au) else none) := by
  induction aus generalizing l with
  | nil =>
    simp only [collectAuthors, Except.ok.injEq] at h
    simp [← h]
  | cons au rest ih =>
    cases hp : processAuthor au with
    | error e => simp only [collectAuthors, hp] at h; cases h
    | ok o =>
      simp only [collectAuthors, hp] at h
      have ho := processAuthor_ok au o hp
      by_cases hq : authorQualifies au = true
      · rw [if_pos hq] at ho
        subst ho
        cases hr : collectAuthors rest with
        | error e => simp only [hr] at h; cases h
        | ok ts =>
          simp only [hr, Except.ok.injEq] at h
          obtain ⟨h1, h2⟩ := ih ts hr
          refine ⟨?_, ?_⟩
          · rw [← h, h1, List.filter_cons, if_pos hq]
            rfl
          · intro x hx
            rcases List.mem_cons.mp hx with rfl | hx'
            · rw [hp, if_pos hq]
            · exact h2 x hx'
      · rw [if_neg hq] at ho
        subst ho
        obtain ⟨h1, h2⟩ := ih l h
        refine ⟨?_, ?_⟩
        · rw [h1, List.filter_cons, if_neg hq]
        · intro x hx
          rcases List.mem_cons.mp hx with rfl | hx'
          · rw [hp, if_neg hq]
          · exact h2 x hx'

theorem processArticle_ok (a : Element) (o : Option ResultRecord)
    (h : processArticle a = .ok o) :
    o = if articleQualifies a = true then some (recordPure a) else none := by
  unfold processArticle at h
  cases hc : collectAuthors (findAllDesc a "Author") with
  | error e => simp only [hc] at h; cases h
  | ok company_authors =>
    simp only [hc] at h
    obtain ⟨h1, _⟩ := collectAuthors_ok _ _ hc
    subst h1
    have hemp : (((findAllDesc a "Author").filter authorQualifies).map pureTriple).isEmpty
        = !articleQualifies a := by
      rw [isEmpty_map, filter_isEmpty_eq_not_any]
      rfl
    by_cases hq : articleQualifies a = true
    · rw [hemp, hq] at h
      simp only [Bool.not_true, Bool.false_eq_true, if_false, Except.ok.injEq] at h
      rw [if_pos hq, ← h]
      unfold recordPure qualAuthors
      simp [List.map_map, pureTriple, Function.comp]
    · have hq' : articleQualifies a = false := by
        cases hqv : articleQualifies a
        · rfl
        · exact absurd hqv hq
      rw [hemp, hq'] at h
      simp only [Bool.not_false, if_true, Except.ok.injEq] at h
      rw [if_neg hq, ← h]

theorem collectArticles_ok (as : List Element) (rs : List ResultRecord)
    (h : collectArticles as = .ok rs) :
    rs = (as.filter articleQualifies).map recordPure ∧
    ∀ a ∈ as, processArticle a =
      .ok (if articleQualifies a = true then some (recordPure a) else none) := by
  induction as generalizing rs with
  | nil =>
    simp only [collectArticles, Except.ok.injEq] at h
    simp [← h]
  | cons a rest ih =>
    cases hp : processArticle a with
    | error e => simp only [collectArticles, hp] at h; cases h
    | ok o =>
      simp only [collectArticles, hp] at h
      have ho := processArticle_ok a o hp
      by_cases hq : articleQualifies a = true
      · rw [if_pos hq] at ho
        subst ho
        cases hr : collectArticles rest with
        | error e => simp only [hr] at h; cases h
        | ok ts =>
          simp only [hr, Except.ok.injEq] at h
          obtain ⟨h1, h2⟩ := ih ts hr
          refine ⟨?_, ?_⟩
          · rw [← h, h1, List.filter_cons, if_pos hq]
            rfl
          · intro x hx
            rcases List.mem_cons.mp hx with rfl | hx'
            · rw [hp, if_pos hq]
            · exact h2 x hx'
      · rw [if_neg hq] at ho
        subst ho
        obtain ⟨h1, h2⟩ := ih rs h
        refine ⟨?_, ?_⟩
        · rw [h1, List.filter_cons, if_neg hq]
        · intro x hx
          rcases List.mem_cons.mp hx with rfl | hx'
          · rw [hp, if_neg hq]
          · exact h2 x hx'

/-! ### Totality on documents without textless name elements, and the
classification of the raised errors -/

theorem authorFullName_total (au : Element) (h : nameTextOk au = true) :
    authorFullName au = .ok (fullNamePure au) := by
  unfold nameTextOk at h
  rw [Bool.and_eq_true] at h
  obtain ⟨h1, h2⟩ := h
  cases hf : findChild au "ForeName" with
  | none =>
    cases hl : findChild au "LastName" with
    | none => simp [authorFullName, fullNameOfParts, fullNamePure, hf, hl]
    | some l =>
      simp only [hl] at h2
      cases hlt : l.text with
      | none => simp [hlt] at h2
      | some lt => simp [authorFullName, fullNameOfParts, fullNamePure, hf, hl, hlt]
  | some f =>
    simp only [hf] at h1
    cases hft : f.text with
    | none => simp [hft] at h1
    | some ft =>
      cases hl : findChild au "LastName" with
      | none => simp [authorFullName, fullNameOfParts, fullNamePure, hf, hft, hl]
      | some l =>
        simp only [hl] at h2
        cases hlt : l.text with
        | none => simp [hlt] at h2
        | some lt => simp [authorFullName, fullNameOfParts, fullNamePure, hf, hft, hl, hlt]

theorem processAuthor_total (au : Element)
    (h : authorQualifies au = true → nameTextOk au = true) :
    ∃ r, processAuthor au = .ok r := by
  unfold processAuthor processAuthorCore
  cases haf : findDescPath au "AffiliationInfo" "Affiliation" with
  | none => exact ⟨none, rfl⟩
  | some affil =>
    cases hc : has_company_affiliation affil.text with
    | false => simp [hc]
    | true =>
      have hq : authorQualifies au = true := by
        unfold authorQualifies
        rw [haf]
        exact hc
      rw [authorFullName_total au (h hq)]
      simp [hc]

theorem collectAuthors_total (aus : List Element)
    (h : ∀ au ∈ aus, authorQualifies au = true → nameTextOk au = true) :
    ∃ l, collectAuthors aus = .ok l := by
  induction aus with
  | nil => exact ⟨[], rfl⟩
  | cons au rest ih =>
    obtain ⟨r, hr⟩ := processAuthor_total au (h au (by simp))
    obtain ⟨ts, hts⟩ := ih (fun x hx hq => h x (by simp [hx]) hq)
    cases r with
    | none => exact ⟨ts, by simp [collectAuthors, hr, hts]⟩
    | some t => exact ⟨t :: ts, by simp [collectAuthors, hr, hts]⟩

theorem processArticle_total (a : Element)
    (h : ∀ au ∈ findAllDesc a "Author", authorQualifies au = true → nameTextOk au = true) :
    ∃ o, processArticle a = .ok o := by
  obtain ⟨l, hl⟩ := collectAuthors_total _ h
  unfold processArticle
  rw [hl]
  cases hemp : l.isEmpty
  · simp [hemp]
  · simp [hemp]

theorem collectArticles_total (as : List Element)
    (h : ∀ a ∈ as, ∀ au ∈ findAllDesc a "Author",
      authorQualifies au = true → nameTextOk au = true) :
    ∃ rs, collectArticles as = .ok rs := by
  induction as with
  | nil => exact ⟨[], rfl⟩
  | cons a rest ih =>
    obtain ⟨o, ho⟩ := processArticle_total a (h a (by simp))
    obtain ⟨ts, hts⟩ := ih (fun x hx => h x (by simp [hx]))
    cases o with
    | none => exact ⟨ts, by simp [collectArticles, ho, hts]⟩
    | some r => exact ⟨r :: ts, by simp [collectArticles, ho, hts]⟩

theorem fullNameOfParts_cases (f l : Option Element) :
    (∃ n, fullNameOfParts f l = .ok n) ∨ fullNameOfParts f l = .error .typeError := by
  unfold fullNameOfParts
  repeat' split
  all_goals first
    | (left; exact ⟨_, rfl⟩)
    | (right; rfl)

theorem processAuthor_error (au : Element) (e : ExtractError)
    (h : processAuthor au = .error e) : e = .typeError := by
  unfold processAuthor processAuthorCore at h
  cases haf : findDescPath au "AffiliationInfo" "Affiliation" with
  | none => rw [haf] at h; cases h
  | some affil =>
    rw [haf] at h
    cases hc : has_company_affiliation affil.text with
    | false => simp [hc] at h
    | true =>
      simp only [hc, if_true] at h
      rcases fullNameOfParts_cases (findChild au "ForeName") (findChild au "LastName") with
        ⟨n, hn⟩ | hn
      · rw [show authorFullName au = fullNameOfParts (findChild au "ForeName")
            (findChild au "LastName") from rfl, hn] at h
        simp at h
      · rw [show authorFullName au = fullNameOfParts (findChild au "ForeName")
            (findChild au "LastName") from rfl, hn] at h
        cases h
        rfl

theorem collectAuthors_error (aus : List Element) (e : ExtractError)
    (h : collectAuthors aus = .error e) : e = .typeError := by
  induction aus with
  | nil => cases h
  | cons au rest ih =>
    unfold collectAuthors at h
    cases hp : processAuthor au with
    | error e' =>
      rw [hp] at h
      cases h
      exact processAuthor_error au e hp
    | ok o =>
      rw [hp] at h
      cases o with
      | none => exact ih h
      | some t =>
        simp only at h
        cases hr : collectAuthors rest with
        | error e' => rw [hr] at h; cases h; exact ih hr
        | ok ts => rw [hr] at h; cases h

theorem processArticle_error (a : Element) (e : ExtractError)
    (h : processArticle a = .error e) : e = .typeError := by
  unfold processArticle at h
  cases hc : collectAuthors (findAllDesc a "Author") with
  | error e' => rw [hc] at h; cases h; exact collectAuthors_error _ e hc
  | ok l =>
    rw [hc] at h
    cases hemp : l.isEmpty <;> simp [hemp] at h

theorem collectArticles_error (as : List Element) (e : ExtractError)
    (h : collectArticles as = .error e) : e = .typeError := by
  induction as with
  | nil => cases h
  | cons a rest ih =>
    unfold collectArticles at h
    cases hp : processArticle a with
    | error e' =>
      rw [hp] at h
      cases h
      exact processArticle_error a e hp
    | ok o =>
      rw [hp] at h
      cases o with
      | none => exact ih h
      | some r =>
        simp only at h
        cases hr : collectArticles rest with
        | error e' => rw [hr] at h; cases h; exact ih hr
        | ok ts => rw [hr] at h; cases h

/-! ### Characterisation of the substring test and of the e-mail search -/

theorem strContains_iff (hay needle : String) :
    strContains hay needle = true ↔ needle.data <:+: hay.data := by
  unfold strContains
  rw [List.any_eq_true]
  constructor
  · rintro ⟨t, ht, hpre⟩
    rw [List.mem_tails] at ht
    have hp : needle.data <+: t := by simpa using hpre
    exact List.infix_iff_prefix_suffix.mpr ⟨t, hp, ht⟩
  · intro hinf
    obtain ⟨t, hpre, hsuf⟩ := List.infix_iff_prefix_suffix.mp hinf
    exact ⟨t, (List.mem_tails _ _).mpr hsuf, by simpa using hpre⟩

theorem mem_takeWhile_pred {α : Type} (p : α → Bool) (l : List α) :
    ∀ c ∈ l.takeWhile p, p c = true := by
  induction l with
  | nil => simp
  | cons x xs ih =>
    cases hx : p x with
    | false => simp [List.takeWhile_cons, hx]
    | true =>
      simp only [List.takeWhile_cons, hx]
      intro c hc
      rcases List.mem_cons.mp hc with rfl | hc'
      · exact hx
      · exact ih c hc'

theorem head?_dropWhile_pred {α : Type} (p : α → Bool) (l : List α) :
    ∀ c, (l.dropWhile p).head? = some c → p c = false := by
  induction l with
  | nil => simp
  | cons x xs ih =>
    intro c hc
    cases hx : p x with
    | false =>
      simp [List.dropWhile_cons, hx] at hc
      subst hc
      exact hx
    | true =>
      simp [List.dropWhile_cons, hx] at hc
      exact ih c hc

theorem span_of_decomp {α : Type} (p : α → Bool) (l1 rest : List α)
    (h1 : ∀ c ∈ l1, p c = true)
    (h2 : ∀ c, rest.head? = some c → p c = false) :
    (l1 ++ rest).takeWhile p = l1 ∧ (l1 ++ rest).dropWhile p = rest := by
  induction l1 with
  | nil =>
    cases rest with
    | nil => exact ⟨rfl, rfl⟩
    | cons r rs =>
      have hr := h2 r rfl
      simp [List.takeWhile_cons, List.dropWhile_cons, hr]
  | cons x xs ih =>
    have hx : p x = true := h1 x (by simp)
    obtain ⟨ht, hd⟩ := ih (fun c hc => h1 c (by simp [hc]))
    simp [List.takeWhile_cons, List.dropWhile_cons, hx, ht, hd]

theorem matchEmailAt_spec (cs m : List Char) :
    matchEmailAt cs = some m ↔
      ∃ l1 l2 rest, cs = l1 ++ '@' :: (l2 ++ rest) ∧ l1 ≠ [] ∧ l2 ≠ [] ∧
        (∀ c ∈ l1, emailChar c = true) ∧ (∀ c ∈ l2, emailChar c = true) ∧
        (∀ c, rest.head? = some c → emailChar c = false) ∧
        m = l1 ++ '@' :: l2 := by
  constructor
  · intro h
    simp only [matchEmailAt] at h
    split at h
    · cases h
    · rename_i hne
      split at h
      · rename_i rest2 heq
        split at h
        · cases h
        · rename_i hne2
          refine ⟨cs.takeWhile emailChar, rest2.takeWhile emailChar,
            rest2.dropWhile emailChar, ?_, ?_, ?_, ?_, ?_, ?_, ?_⟩
          · conv_lhs => rw [← List.takeWhile_append_dropWhile (p := emailChar) (l := cs)]
            rw [heq, List.takeWhile_append_dropWhile]
          · simpa using hne
          · simpa using hne2
          · exact mem_takeWhile_pred emailChar cs
          · exact mem_takeWhile_pred emailChar rest2
          · exact head?_dropWhile_pred emailChar rest2
          · cases h
            rfl
      · cases h
  · rintro ⟨l1, l2, rest, hcs, h1ne, h2ne, h1p, h2p, hrest, hm⟩
    have hspan : (l1 ++ ('@' :: (l2 ++ rest))).takeWhile emailChar = l1 ∧
        (l1 ++ ('@' :: (l2 ++ rest))).dropWhile emailChar = '@' :: (l2 ++ rest) := by
      refine span_of_decomp emailChar l1 ('@' :: (l2 ++ rest)) h1p ?_
      intro c hc
      simp only [List.head?_cons, Option.some.injEq] at hc
      rw [← hc]
      rfl
    have hspan2 : (l2 ++ rest).takeWhile emailChar = l2 ∧
        (l2 ++ rest).dropWhile emailChar = rest :=
      span_of_decomp emailChar l2 rest h2p hrest
    subst hcs
    simp only [matchEmailAt, hspan.1, hspan.2, hspan2.1]
    rw [if_neg (by simpa using h1ne)]
    rw [if_neg (by simpa using h2ne)]
    rw [hm]

theorem searchEmail_eq_none_iff (cs : List Char) :
    searchEmail cs = none ↔ ∀ i, matchEmailAt (cs.drop i) = none := by
  induction cs with
  | nil =>
    constructor
    · intro _ i
      rw [List.drop_nil]
      rfl
    · intro _
      rfl
  | cons c cs ih =>
    cases hm : matchEmailAt (c :: cs) with
    | some m0 =>
      simp only [searchEmail, hm]
      constructor
      · intro h
        cases h
      · intro hall
        have h0 := hall 0
        rw [List.drop_zero] at h0
        rw [hm] at h0
        cases h0
    | none =>
      simp only [searchEmail, hm]
      rw [ih]
      constructor
      · intro hall i
        cases i with
        | zero => rw [List.drop_zero]; exact hm
        | succ j => rw [List.drop_succ_cons]; exact hall j
      · intro hall j
        have hj := hall (j + 1)
        rw [List.drop_succ_cons] at hj
        exact hj

theorem searchEmail_eq_some_iff (cs m : List Char) :
    searchEmail cs = some m ↔
      ∃ i, matchEmailAt (cs.drop i) = some m ∧
        ∀ j, j < i → matchEmailAt (cs.drop j) = none := by
  induction cs with
  | nil =>
    constructor
    · intro h
      cases h
    · rintro ⟨i, hi, -⟩
      rw [List.drop_nil] at hi
      cases hi
  | cons c cs ih =>
    cases hm : matchEmailAt (c :: cs) with
    | some m0 =>
      simp only [searchEmail, hm, Option.some.injEq]
      constructor
      · intro h
        refine ⟨0, ?_, ?_⟩
        · rw [List.drop_zero, hm, h]
        · intro j hj
          cases hj
      · rintro ⟨i, hi, hj⟩
        cases i with
        | zero =>
          rw [List.drop_zero, hm] at hi
          cases hi
          rfl
        | succ k =>
          have h0 := hj 0 (Nat.succ_pos k)
          rw [List.drop_zero, hm] at h0
          cases h0
    | none =>
      simp only [searchEmail, hm]
      rw [ih]
      constructor
      · rintro ⟨i, hi, hj⟩
        refine ⟨i + 1, ?_, ?_⟩
        · rw [List.drop_succ_cons]
          exact hi
        · intro j hjlt
          cases j with
          | zero => rw [List.drop_zero]; exact hm
          | succ k =>
            rw [List.drop_succ_cons]
            exact hj k (Nat.lt_of_succ_lt_succ hjlt)
      · rintro ⟨i, hi, hj⟩
        cases i with
        | zero =>
          rw [List.drop_zero, hm] at hi
          cases hi
        | succ k =>
          rw [List.drop_succ_cons] at hi
          refine ⟨k, hi, ?_⟩
          intro j hjk
          have := hj (j + 1) (Nat.succ_lt_succ hjk)
          rw [List.drop_succ_cons] at this
          exact this

/-! ### The claims -/

/-- Claim C1: for every parsed document, `parse_articles` emits a result
record for a source record iff that record has at least one author whose
affiliation classifies as commercial; the output length equals the count of
such records and is at most the number of records. -/
theorem extract_emits_iff_qualifying (root : Element) (rs : List ResultRecord)
    (h : parse_articles (.wellFormed root) = .ok rs) :
    rs.length = ((findAllDesc root "PubmedArticle").filter articleQualifies).length ∧
    rs.length ≤ (findAllDesc root "PubmedArticle").length ∧
    ∀ a ∈ findAllDesc root "PubmedArticle",
      (articleQualifies a = true ↔ ∃ r, processArticle a = .ok (some r)) := by
  have hc : collectArticles (findAllDesc root "PubmedArticle") = .ok rs := h
  obtain ⟨h1, h2⟩ := collectArticles_ok _ _ hc
  subst h1
  refine ⟨by simp, ?_, ?_⟩
  · simpa using List.length_filter_le articleQualifies (findAllDesc root "PubmedArticle")
  · intro a ha
    constructor
    · intro hq
      exact ⟨recordPure a, by rw [h2 a ha, if_pos hq]⟩
    · rintro ⟨r, hr⟩
      by_contra hq
      have hpa := h2 a ha
      rw [hr, if_neg hq] at hpa
      simp at hpa

/-- Witness for C1 on a two-record document with one qualifying record. -/
theorem extract_emits_iff_qualifying_witness :
    exC1out.length = ((findAllDesc exC1root "PubmedArticle").filter articleQualifies).length ∧
    exC1out.length ≤ (findAllDesc exC1root "PubmedArticle").length ∧
    ∀ a ∈ findAllDesc exC1root "PubmedArticle",
      (articleQualifies a = true ↔ ∃ r, processArticle a = .ok (some r)) :=
  extract_emits_iff_qualifying exC1root exC1out rfl

/-- Claim C2: the classifier returns false on an absent or empty
affiliation, and otherwise returns true iff some commercial marker is a
(case-sensitive) substring of the text and no academic marker is. -/
theorem has_company_affiliation_spec :
    has_company_affiliation none = false ∧
    has_company_affiliation (some "") = false ∧
    ∀ s : String, s ≠ "" →
      (has_company_affiliation (some s) = true ↔
        (∃ k ∈ keywords, k.data <:+: s.data) ∧
        ∀ e ∈ excluded, ¬ e.data <:+: s.data) := by
  refine ⟨rfl, rfl, ?_⟩
  intro s hs
  simp only [has_company_affiliation]
  rw [if_neg hs, Bool.and_eq_true]
  constructor
  · rintro ⟨hany, hnone⟩
    rw [List.any_eq_true] at hany
    obtain ⟨k, hk, hks⟩ := hany
    refine ⟨⟨k, hk, (strContains_iff s k).mp hks⟩, ?_⟩
    intro e he hinf
    rw [Bool.not_eq_true', List.any_eq_false] at hnone
    exact hnone e he ((strContains_iff s e).mpr hinf)
  · rintro ⟨⟨k, hk, hki⟩, hnone⟩
    refine ⟨List.any_eq_true.mpr ⟨k, hk, (strContains_iff s k).mpr hki⟩, ?_⟩
    rw [Bool.not_eq_true', List.any_eq_false]
    intro e he hc
    exact hnone e he ((strContains_iff s e).mp hc)

/-- Witness for C2 at a nonempty commercial affiliation. -/
theorem has_company_affiliation_spec_witness :
    has_company_affiliation (some "Acme Pharma Inc") = true ↔
      (∃ k ∈ keywords, k.data <:+: ("Acme Pharma Inc" : String).data) ∧
      ∀ e ∈ excluded, ¬ e.data <:+: ("Acme Pharma Inc" : String).data :=
  has_company_affiliation_spec.2.2 "Acme Pharma Inc" (by decide)

/-- Claim C3 counterexample: a structurally well-formed document on which
extraction raises.  The single record's author has a commercial
affiliation and a present-but-textless `ForeName` element, so the
full-name expression adds `None` to a string and raises `TypeError`. -/
theorem extraction_total_counterexample :
    parse_articles (.wellFormed exC3root) = .error .typeError := rfl

/-- Claim C3 as amended: extraction terminates normally on every
well-formed document in which no qualifying author has a
present-but-textless `ForeName`/`LastName` element; all other absent or
empty optional fields resolve to sentinels or empty contributions. -/
theorem extraction_total_amended (root : Element) (h : docNamesOk root = true) :
    ∃ rs, parse_articles (.wellFormed root) = .ok rs := by
  unfold docNamesOk at h
  rw [List.all_eq_true] at h
  refine collectArticles_total _ ?_
  intro a ha au hau hq
  have ha2 := h a ha
  rw [List.all_eq_true] at ha2
  have h2 := ha2 au hau
  rw [hq] at h2
  simpa using h2

/-- Witness for the amended C3 on a maximally sparse document. -/
theorem extraction_total_amended_witness :
    docNamesOk exC3okroot = true ∧
    ∃ rs, parse_articles (.wellFormed exC3okroot) = .ok rs :=
  ⟨rfl, extraction_total_amended exC3okroot rfl⟩

/-- Claim C4: in every emitted record the three sequences have equal
length, and they are the pointwise name/affiliation/e-mail images of the
qualifying authors of one source record, in document order. -/
theorem result_sequences_parallel (root : Element) (rs : List ResultRecord)
    (r : ResultRecord) (h : parse_articles (.wellFormed root) = .ok rs) (hr : r ∈ rs) :
    r.authors.length = r.affiliations.length ∧
    r.affiliations.length = r.emails.length ∧
    ∃ a ∈ findAllDesc root "PubmedArticle",
      articleQualifies a = true ∧
      r.authors = (qualAuthors a).map fullNamePure ∧
      r.affiliations = (qualAuthors a).map affilTextPure ∧
      r.emails = (qualAuthors a).map emailPure := by
  have hc : collectArticles (findAllDesc root "PubmedArticle") = .ok rs := h
  obtain ⟨h1, -⟩ := collectArticles_ok _ _ hc
  subst h1
  obtain ⟨a, ha, rfl⟩ := List.mem_map.mp hr
  have hmem := List.mem_filter.mp ha
  exact ⟨by simp [recordPure], by simp [recordPure], a, hmem.1, hmem.2, rfl, rfl, rfl⟩

/-- Witness for C4 on a record with two qualifying authors separated by an
academic one. -/
theorem result_sequences_parallel_witness :
    exC4rec.authors.length = exC4rec.affiliations.length ∧
    exC4rec.affiliations.length = exC4rec.emails.length ∧
    ∃ a ∈ findAllDesc exC4root "PubmedArticle",
      articleQualifies a = true ∧
      exC4rec.authors = (qualAuthors a).map fullNamePure ∧
      exC4rec.affiliations = (qualAuthors a).map affilTextPure ∧
      exC4rec.emails = (qualAuthors a).map emailPure :=
  result_sequences_parallel exC4root [exC4rec] exC4rec rfl (by simp)

theorem processAuthor_fields (au : Element) (n af em : String)
    (h : processAuthor au = .ok (some (n, af, em))) :
    authorFullName au = .ok n ∧ af = affilTextPure au ∧ em = emailPure au := by
  unfold processAuthor processAuthorCore at h
  split at h
  · simp at h
  · rename_i affil haf
    split at h
    · cases hn : authorFullName au with
      | error e => rw [hn] at h; cases h
      | ok nm =>
        rw [hn] at h
        simp only [Except.ok.injEq, Option.some.injEq, Prod.mk.injEq] at h
        obtain ⟨h1, h2, h3⟩ := h
        have hat : affilTextPure au = affil.text.getD "" := by
          simp [affilTextPure, haf]
        refine ⟨?_, ?_, ?_⟩
        · rw [h1]
        · rw [hat]
          exact h2.symm
        · have he : emailPure au =
              match searchEmail (affil.text.getD "").data with
              | some m => String.mk m
              | none => "N/A" := by
            simp [emailPure, hat]
          rw [he]
          exact h3.symm
    · simp at h

/-- Claim C5 counterexample: an emitted record whose `pmid` is `"N/A"`
although the source record does have an identifier field (its text is the
literal string `"N/A"`), refuting the "exactly when absent" biconditional;
the same reading applies to the title and date sentinels. -/
theorem sentinel_exactly_counterexample :
    parse_articles (.wellFormed exC5root) = .ok [exC5rec] ∧
    exC5rec.pmid = some "N/A" ∧
    findFirstDesc exC5art "PMID" = some (.mk "PMID" (some "N/A") []) :=
  ⟨rfl, rfl, rfl⟩

/-- Claim C5 as amended: a sentinel is substituted when the corresponding
field is absent; when the field is present its text is passed through
verbatim — so a present-but-empty field yields its (`none`) text, never a
sentinel, while a present field whose own text equals the sentinel string
still surfaces that string. -/
theorem sentinel_on_absence_amended (a : Element) (r : ResultRecord)
    (h : processArticle a = .ok (some r)) :
    (findFirstDesc a "PMID" = none → r.pmid = some "N/A") ∧
    (∀ e, findFirstDesc a "PMID" = some e → r.pmid = e.text) ∧
    (findFirstDesc a "ArticleTitle" = none → r.title = some "No Title") ∧
    (∀ e, findFirstDesc a "ArticleTitle" = some e → r.title = e.text) ∧
    (findFirstDesc a "PubDate" = none → r.date = some "Unknown") := by
  have ho := processArticle_ok a (some r) h
  by_cases hq : articleQualifies a = true
  · rw [if_pos hq] at ho
    injection ho with hr
    subst hr
    refine ⟨?_, ?_, ?_, ?_, ?_⟩
    · intro hnone
      simp [recordPure, resolvePmid, hnone]
    · intro e he
      simp [recordPure, resolvePmid, he]
    · intro hnone
      simp [recordPure, resolveTitle, hnone]
    · intro e he
      simp [recordPure, resolveTitle, he]
    · intro hnone
      simp [recordPure, resolvePubDate, hnone]
  · rw [if_neg hq] at ho
    cases ho

/-- Witness for the amended C5 on a record with no identifier, title or
date fields. -/
theorem sentinel_on_absence_amended_witness :
    (findFirstDesc exC5amArt "PMID" = none → exC5amRec.pmid = some "N/A") ∧
    (∀ e, findFirstDesc exC5amArt "PMID" = some e → exC5amRec.pmid = e.text) ∧
    (findFirstDesc exC5amArt "ArticleTitle" = none → exC5amRec.title = some "No Title") ∧
    (∀ e, findFirstDesc exC5amArt "ArticleTitle" = some e → exC5amRec.title = e.text) ∧
    (findFirstDesc exC5amArt "PubDate" = none → exC5amRec.date = some "Unknown") :=
  sentinel_on_absence_amended exC5amArt exC5amRec rfl

/-- Claim C6: when a date block exists, the resolved date is the year
sub-field's text if a year sub-field exists, else the free-form date
sub-field's text if one exists, else the sentinel `"Unknown"`; exactly one
sub-field is consulted and the two are never combined. -/
theorem pubdate_priority (a : Element) (r : ResultRecord) (d : Element)
    (h : processArticle a = .ok (some r)) (hd : findFirstDesc a "PubDate" = some d) :
    (∀ y, findChild d "Year" = some y → r.date = y.text) ∧
    (findChild d "Year" = none →
      ∀ m, findChild d "MedlineDate" = some m → r.date = m.text) ∧
    (findChild d "Year" = none → findChild d "MedlineDate" = none →
      r.date = some "Unknown") := by
  have ho := processArticle_ok a (some r) h
  by_cases hq : articleQualifies a = true
  · rw [if_pos hq] at ho
    injection ho with hr
    subst hr
    refine ⟨?_, ?_, ?_⟩
    · intro y hy
      simp [recordPure, resolvePubDate, hd, hy]
    · intro hy m hm
      simp [recordPure, resolvePubDate, hd, hy, hm]
    · intro hy hm
      simp [recordPure, resolvePubDate, hd, hy, hm]
  · rw [if_neg hq] at ho
    cases ho

/-- Witness for C6 on a date block carrying both a year and a free-form
date: the year wins. -/
theorem pubdate_priority_witness :
    (∀ y, findChild exC6date "Year" = some y → exC6rec.date = y.text) ∧
    (findChild exC6date "Year" = none →
      ∀ m, findChild exC6date "MedlineDate" = some m → exC6rec.date = m.text) ∧
    (findChild exC6date "Year" = none → findChild exC6date "MedlineDate" = none →
      exC6rec.date = some "Unknown") :=
  pubdate_priority exC6art exC6rec exC6date rfl rfl

/-- Claim C7: a qualifying author's emitted full name is given-name, a
single space, then family-name when both are present with text; the
family-name alone when the given-name is absent; and empty when both are
absent. -/
theorem fullname_rule (au : Element) (n af em : String)
    (h : processAuthor au = .ok (some (n, af, em))) :
    (∀ f ft l lt, findChild au "ForeName" = some f → f.text = some ft →
      findChild au "LastName" = some l → l.text = some lt →
      n = ft ++ " " ++ lt) ∧
    (findChild au "ForeName" = none →
      ∀ l lt, findChild au "LastName" = some l → l.text = some lt → n = lt) ∧
    (findChild au "ForeName" = none → findChild au "LastName" = none → n = "") := by
  obtain ⟨hn, -, -⟩ := processAuthor_fields au n af em h
  unfold authorFullName at hn
  refine ⟨?_, ?_, ?_⟩
  · intro f ft l lt hf hft hl hlt
    rw [hf, hl] at hn
    simp only [fullNameOfParts, hft, hlt, Except.ok.injEq] at hn
    exact hn.symm
  · intro hf l lt hl hlt
    rw [hf, hl] at hn
    simp only [fullNameOfParts, hlt, Except.ok.injEq] at hn
    exact hn.symm
  · intro hf hl
    rw [hf, hl] at hn
    simp only [fullNameOfParts, Except.ok.injEq] at hn
    exact hn.symm

/-- Witness for C7 on an author with both name parts present. -/
theorem fullname_rule_witness :
    (∀ f ft l lt, findChild exC7author "ForeName" = some f → f.text = some ft →
      findChild exC7author "LastName" = some l → l.text = some lt →
      ("Grace Hopper" : String) = ft ++ " " ++ lt) ∧
    (findChild exC7author "ForeName" = none →
      ∀ l lt, findChild exC7author "LastName" = some l → l.text = some lt →
        ("Grace Hopper" : String) = lt) ∧
    (findChild exC7author "ForeName" = none → findChild exC7author "LastName" = none →
      ("Grace Hopper" : String) = "") :=
  fullname_rule exC7author "Grace Hopper" "Zeta Computing Inc" "N/A" rfl

/-- Claim C8: a qualifying author's emitted e-mail is the first
left-to-right match of the `local-part@domain` pattern in the affiliation
text — both parts nonempty runs of word characters, dots or hyphens — and
the sentinel `"N/A"` when no start position matches; the anchored matcher
is characterised exactly, and the spec's concrete example is covered. -/
theorem email_first_match (au : Element) (n af em : String)
    (h : processAuthor au = .ok (some (n, af, em))) :
    ((∀ i, matchEmailAt (af.data.drop i) = none) → em = "N/A") ∧
    (∀ i m, matchEmailAt (af.data.drop i) = some m →
      (∀ j, j < i → matchEmailAt (af.data.drop j) = none) → em = String.mk m) ∧
    (∀ cs mm, matchEmailAt cs = some mm ↔
      ∃ l1 l2 rest, cs = l1 ++ '@' :: (l2 ++ rest) ∧ l1 ≠ [] ∧ l2 ≠ [] ∧
        (∀ c ∈ l1, emailChar c = true) ∧ (∀ c ∈ l2, emailChar c = true) ∧
        (∀ c, rest.head? = some c → emailChar c = false) ∧
        mm = l1 ++ '@' :: l2) ∧
    (af = "Acme Pharma Inc, Boston. Contact: jane.doe@acme-pharma.com" →
      em = "jane.doe@acme-pharma.com") := by
  obtain ⟨-, haf, hem⟩ := processAuthor_fields au n af em h
  have hem2 : em =
      match searchEmail af.data with
      | some m => String.mk m
      | none => "N/A" := by
    rw [hem, haf]
    rfl
  refine ⟨?_, ?_, ?_, ?_⟩
  · intro hall
    have hnone : searchEmail af.data = none := (searchEmail_eq_none_iff af.data).mpr hall
    rw [hem2, hnone]
  · intro i m hi hj
    have hsome : searchEmail af.data = some m :=
      (searchEmail_eq_some_iff af.data m).mpr ⟨i, hi, hj⟩
    rw [hem2, hsome]
  · intro cs mm
    exact matchEmailAt_spec cs mm
  · intro hafv
    subst hafv
    rw [hem2]
    rfl

/-- Witness for C8: the spec's example affiliation yields the example
e-mail. -/
theorem email_first_match_witness :
    ((∀ i, matchEmailAt (("Acme Pharma Inc, Boston. Contact: jane.doe@acme-pharma.com" :
        String).data.drop i) = none) → ("jane.doe@acme-pharma.com" : String) = "N/A") ∧
    (∀ i m, matchEmailAt (("Acme Pharma Inc, Boston. Contact: jane.doe@acme-pharma.com" :
        String).data.drop i) = some m →
      (∀ j, j < i → matchEmailAt (("Acme Pharma Inc, Boston. Contact: jane.doe@acme-pharma.com" :
        String).data.drop j) = none) →
      ("jane.doe@acme-pharma.com" : String) = String.mk m) ∧
    (∀ cs mm, matchEmailAt cs = some mm ↔
      ∃ l1 l2 rest, cs = l1 ++ '@' :: (l2 ++ rest) ∧ l1 ≠ [] ∧ l2 ≠ [] ∧
        (∀ c ∈ l1, emailChar c = true) ∧ (∀ c ∈ l2, emailChar c = true) ∧
        (∀ c, rest.head? = some c → emailChar c = false) ∧
        mm = l1 ++ '@' :: l2) ∧
    (("Acme Pharma Inc, Boston. Contact: jane.doe@acme-pharma.com" : String) =
        "Acme Pharma Inc, Boston. Contact: jane.doe@acme-pharma.com" →
      ("jane.doe@acme-pharma.com" : String) = "jane.doe@acme-pharma.com") :=
  email_first_match exC8author "Jane Doe"
    "Acme Pharma Inc, Boston. Contact: jane.doe@acme-pharma.com"
    "jane.doe@acme-pharma.com" rfl

/-- Claim C9 counterexample: a well-formed document on which the core
surfaces an error that is not the structural parse error (the `TypeError`
of the full-name expression), refuting "this is the only error kind
surfaced to the caller". -/
theorem parse_error_only_counterexample :
    parse_articles (.wellFormed exC9root) = .error .typeError ∧
    ExtractError.typeError ≠ ExtractError.parseError :=
  ⟨rfl, by decide⟩

/-- Claim C9 as amended: unparsable input raises the structural parse
error immediately and no result is emitted; on well-formed documents the
only error kind that can additionally surface is the `TypeError` of the
full-name expression. -/
theorem parse_error_amended :
    parse_articles .malformed = .error .parseError ∧
    (∀ rs, parse_articles .malformed ≠ .ok rs) ∧
    (∀ root e, parse_articles (.wellFormed root) = .error e → e = .typeError) := by
  refine ⟨rfl, ?_, ?_⟩
  · intro rs hrs
    cases hrs
  · intro root e h
    exact collectArticles_error _ e h

/-- Witness for the amended C9, discharging each hypothesis concretely. -/
theorem parse_error_amended_witness :
    (parse_articles .malformed ≠ .ok ([] : List ResultRecord)) ∧
    ExtractError.typeError = ExtractError.typeError :=
  ⟨parse_error_amended.2.1 [], parse_error_amended.2.2 exC9root .typeError rfl⟩

/-- Claim C10: an author's processing depends only on the first
`.//AffiliationInfo/Affiliation` match in document order (and the two name
children); two authors agreeing on those values — in particular authors
differing only in affiliation blocks after the first — are processed
identically, so later blocks never influence the output. -/
theorem first_affiliation_only (au1 au2 : Element)
    (hhead : (affilCandidates au1).head? = (affilCandidates au2).head?)
    (hf : findChild au1 "ForeName" = findChild au2 "ForeName")
    (hl : findChild au1 "LastName" = findChild au2 "LastName") :
    processAuthor au1 = processAuthor au2 := by
  have h1 : findDescPath au1 "AffiliationInfo" "Affiliation" =
      (affilCandidates au1).head? := rfl
  have h2 : findDescPath au2 "AffiliationInfo" "Affiliation" =
      (affilCandidates au2).head? := rfl
  unfold processAuthor authorFullName
  rw [h1, h2, hhead, hf, hl]

/-- Witness for C10: dropping a second, commercial affiliation block does
not change the processing of an author whose first block is academic. -/
theorem first_affiliation_only_witness :
    processAuthor exC10au1 = processAuthor exC10au2 ∧
    processAuthor exC10au1 = .ok none :=
  ⟨first_affiliation_only exC10au1 exC10au2 rfl rfl rfl, rfl⟩
